import Mathlib

/-!
Shallow embedding of the vote validation and ranking engine of
src/compo.py (functions entry_valid, count_valid_entries, verify_votes,
get_ranked_entrant_list), together with theorems settling the claims
about that code.

Numbers are modelled exactly: Python numeric rating values become
rationals, so that the normalization arithmetic is exact.  Python dict
fields that may be missing or None are modelled by the PyField type.
Exceptions are modelled by Except results.
-/

namespace WVote

/-- A Python dict field: the key may be absent, hold None, or hold a value. -/
inductive PyField (α : Type) where
  | absent
  | noneV
  | val (a : α)
deriving DecidableEq

/-- True when the key is present in the dict (even with value None).
Models the Python test `key in entry`. -/
def isPresent {α : Type} : PyField α → Bool
  | PyField.absent => false
  | PyField.noneV => true
  | PyField.val _ => true

/-- True when the key is present and holds None: the Python test
`entry[key] is None`. -/
def isNone {α : Type} : PyField α → Bool
  | PyField.noneV => true
  | _ => false

/-- One rating record inside a ballot (src/compo.py vote data):
keys entryUUID, voteParam, rating. -/
structure Rating where
  entryUUID : String
  voteParam : String
  rating : ℚ
deriving DecidableEq

/-- One ballot (a vote dict).  `minimum` and `maximum` model the scratch
keys written by the extent scan of get_ranked_entrant_list
(src/compo.py lines 228-236); before that scan nothing reads them. -/
structure Vote where
  userID : String
  ratings : List Rating
  minimum : ℚ := 5
  maximum : ℚ := 1
deriving DecidableEq

/-- An entry dict (src/compo.py).  Blobs are byte lists.  Fields the code
reads or writes are present; a fresh entry leaves most keys absent. -/
structure Entry where
  uuid : PyField String := PyField.absent
  pdf : PyField (List Nat) := PyField.absent
  pdfFilename : PyField String := PyField.absent
  mp3 : PyField (List Nat) := PyField.absent
  mp3Format : PyField String := PyField.absent
  mp3Filename : PyField String := PyField.absent
  entryName : PyField String := PyField.absent
  entrantName : PyField String := PyField.absent
  discordID : PyField Int := PyField.absent
  voteScore : PyField ℚ := PyField.absent
  votePlacement : PyField ℕ := PyField.absent
deriving DecidableEq

/-- A week dict: only the keys the verification and ranking code touches.
`votes = none` models the week dict lacking the "votes" key. -/
structure Week where
  votes : Option (List Vote) := none
  entries : List Entry := []
deriving DecidableEq

/-- src/compo.py lines 142-162: every key of the requirements list must be
present, and the mp3 and pdf values must not be None.  The source returns
False at the first failing check; the short-circuit conjunction below
evaluates the same checks in the same order. -/
def entry_valid (e : Entry) : Bool :=
  isPresent e.uuid && isPresent e.pdf && isPresent e.pdfFilename &&
  isPresent e.mp3 && isPresent e.mp3Format && isPresent e.mp3Filename &&
  isPresent e.entryName && isPresent e.entrantName &&
  !(isNone e.mp3) && !(isNone e.pdf)

/-- src/compo.py lines 165-172: count = 0; for each entry of the week,
increment when entry_valid holds.  The week lookup get_week(which_week)
is modelled by passing the entry list of that week. -/
def count_valid_entries (entries : List Entry) : ℕ :=
  entries.foldl (fun c e => if entry_valid e then c + 1 else c) 0

/-- The key of the userVotes dict in verify_votes:
(voter id, entry id, parameter). -/
abbrev Triple := String × String × String

/-- Python list.remove(r): delete the first element equal to r.
Call sites in this embedding always pass a member, so the ValueError
branch of the Python method is unreachable. -/
def removeFirst (r : Rating) : List Rating → List Rating
  | [] => []
  | x :: xs => if x = r then xs else x :: removeFirst r xs

/-- The key built at src/compo.py line 201. -/
def ratingKey (uid : String) (r : Rating) : Triple := (uid, r.entryUUID, r.voteParam)

/-- The acceptance test of src/compo.py lines 201-203, in source order:
the triple is not yet claimed, the value is at most 5, the value is at
least 0. -/
def acceptRating (seen : List Triple) (uid : String) (r : Rating) : Bool :=
  !(seen.contains (ratingKey uid r)) && decide (r.rating ≤ 5) && decide (r.rating ≥ 0)

/-- The inner loop of verify_votes (src/compo.py lines 200-215) over one
ballot, modelling CPython for-loop semantics over a list mutated in the
loop body: the loop keeps an index c, reads position c of the current
list, and advances the index by one each iteration; `remove` deletes the
first occurrence, shifting later elements down, so after a rejection the
element that followed the removed one is never visited.  `fuel` bounds
the number of iterations; each iteration advances c by one and never
lengthens the list, so the initial list length is enough fuel and the
fuel-zero case coincides with the loop-exit state.  Returns the final
rating list, the updated claimed-triple set, and the rejection-log
count. -/
def verifyRatingsGo (uid : String) :
    ℕ → List Triple → ℕ → List Rating → ℕ → List Rating × List Triple × ℕ
  | 0, seen, _, rs, logs => (rs, seen, logs)
  | fuel + 1, seen, c, rs, logs =>
    if h : c < rs.length then
      let r := rs.get ⟨c, h⟩
      if acceptRating seen uid r then
        verifyRatingsGo uid fuel (ratingKey uid r :: seen) (c + 1) rs logs
      else
        verifyRatingsGo uid fuel seen (c + 1) (removeFirst r rs) (logs + 1)
    else (rs, seen, logs)

/-- One ballot pass of verify_votes, starting the loop index at 0. -/
def verifyRatings (uid : String) (seen : List Triple) (rs : List Rating) (logs : ℕ) :
    List Rating × List Triple × ℕ :=
  verifyRatingsGo uid rs.length seen 0 rs logs

/-- Process one vote: replace its ratings by the surviving ones. -/
def verifyVote (seen : List Triple) (v : Vote) (logs : ℕ) : Vote × List Triple × ℕ :=
  match verifyRatings v.userID seen v.ratings logs with
  | (rs, seen2, logs2) => ({ v with ratings := rs }, seen2, logs2)

/-- The outer loop of verify_votes over all votes, threading the
userVotes set across ballots as the source does. -/
def verifyVotesList (seen : List Triple) (logs : ℕ) :
    List Vote → List Vote × List Triple × ℕ
  | [] => ([], seen, logs)
  | v :: vs =>
    match verifyVote seen v logs with
    | (v2, seen2, logs2) =>
      match verifyVotesList seen2 logs2 vs with
      | (vs2, seen3, logs3) => (v2 :: vs2, seen3, logs3)

/-- src/compo.py lines 189-215: create the votes key as an empty list
when absent, then sanitize every ballot.  The second component counts
the rejection log records emitted. -/
def verify_votes (week : Week) : Week × ℕ :=
  match verifyVotesList [] 0 (week.votes.getD []) with
  | (vs, _, logs) => ({ week with votes := some vs }, logs)

/-- The exception text raised by the membership test at src/compo.py
line 191 when verify_votes receives a bool instead of a week dict. -/
def typeErrorMsg : String := "TypeError: argument of type bool is not iterable"

/-- A Python argument that is either a week dict or a bool, to model the
dynamically-typed call verify_votes(which_week) at src/compo.py
line 222. -/
inductive PyArg where
  | weekVal (w : Week)
  | boolVal (b : Bool)

/-- verify_votes as called with a dynamically-typed argument: on a week
dict it runs the sanitizer; on a bool, the membership test
`"votes" in week` at line 191 raises TypeError because a bool is not a
container. -/
def verify_votes_dyn : PyArg → Except String (Week × ℕ)
  | PyArg.weekVal w => Except.ok (verify_votes w)
  | PyArg.boolVal _ => Except.error typeErrorMsg

/-- One step of the extent scan (src/compo.py lines 230-236) over the
pair (minimum, maximum): zero ratings are skipped; otherwise the maximum
is raised, then the minimum lowered, exactly as the two source ifs do. -/
def extentStep (mm : ℚ × ℚ) (r : Rating) : ℚ × ℚ :=
  if r.rating = 0 then mm
  else
    let mm2 := if r.rating > mm.2 then (mm.1, r.rating) else mm
    if r.rating < mm2.1 then (r.rating, mm2.2) else mm2

/-- The extent scan of one ballot, starting from minimum 5 and maximum 1
(src/compo.py lines 228-229). -/
def voteExtents (v : Vote) : ℚ × ℚ := v.ratings.foldl extentStep (5, 1)

/-- Write the scan results into the scratch keys of the ballot. -/
def scanVote (v : Vote) : Vote :=
  { v with minimum := (voteExtents v).1, maximum := (voteExtents v).2 }

/-- src/compo.py lines 244-246: the exact normalization arithmetic,
reading the scratch keys of the ballot. -/
def normalized (v : Vote) (r : Rating) : ℚ :=
  ((r.rating - (v.minimum - 1)) / (v.maximum - (v.minimum - 1))) * 5

/-- src/compo.py lines 241-242: create the scores entry for a uuid key
when absent.  The dict is an association list in insertion order. -/
def dictEnsure (sc : List (String × List ℚ)) (u : String) : List (String × List ℚ) :=
  if sc.any (fun p => p.1 == u) then sc else sc ++ [(u, [])]

/-- Append a normalized value to the list held under a uuid key. -/
def dictAppend (sc : List (String × List ℚ)) (u : String) (x : ℚ) :
    List (String × List ℚ) :=
  sc.map (fun p => if p.1 == u then (p.1, p.2 ++ [x]) else p)

/-- src/compo.py lines 240-247 for one rating: ensure the key exists,
then append the normalized value unless the rating is 0. -/
def scoresStep (v : Vote) (sc : List (String × List ℚ)) (r : Rating) :
    List (String × List ℚ) :=
  let sc2 := dictEnsure sc r.entryUUID
  if r.rating = 0 then sc2 else dictAppend sc2 r.entryUUID (normalized v r)

/-- The scores dict accumulated over all ballots (already scanned). -/
def computeScores (votes : List Vote) : List (String × List ℚ) :=
  votes.foldl (fun sc v => v.ratings.foldl (scoresStep v) sc) []

/-- Python equality between an entry uuid field and a rating uuid
string: equal only when the field holds a string value equal to it. -/
def uuidEq : PyField String → String → Bool
  | PyField.val t, s => t == s
  | _, _ => false

/-- Membership plus lookup of an entry uuid in the scores dict
(src/compo.py line 255). -/
def scoreLookup (sc : List (String × List ℚ)) (u : PyField String) : Option (List ℚ) :=
  (sc.find? (fun p => uuidEq u p.1)).map (fun p => p.2)

/-- The exception text of statistics.mean on an empty sequence. -/
def statisticsErrorMsg : String := "StatisticsError: mean requires at least one data point"

/-- The exception text of list.pop on an empty list. -/
def indexErrorMsg : String := "IndexError: pop from empty list"

/-- statistics.mean: the arithmetic mean, raising StatisticsError on an
empty data sequence. -/
def pymean : List ℚ → Except String ℚ
  | [] => Except.error statisticsErrorMsg
  | x :: xs => Except.ok ((x :: xs).sum / ((x :: xs).length : ℚ))

/-- src/compo.py lines 253-259: for each valid entry set voteScore to
the mean of its accumulated scores, or 0 when its uuid is not a scores
key, and collect the valid entries into the pool.  An exception from
mean aborts the run. -/
def assignScores (sc : List (String × List ℚ)) : List Entry → Except String (List Entry)
  | [] => Except.ok []
  | e :: es =>
    if entry_valid e then
      match scoreLookup sc e.uuid with
      | some xs =>
        match pymean xs, assignScores sc es with
        | Except.error m, _ => Except.error m
        | _, Except.error m => Except.error m
        | Except.ok q, Except.ok rest =>
          Except.ok ({ e with voteScore := PyField.val q } :: rest)
      | none =>
        match assignScores sc es with
        | Except.error m => Except.error m
        | Except.ok rest => Except.ok ({ e with voteScore := PyField.val 0 } :: rest)
    else assignScores sc es

/-- The voteScore key of a pool entry; every entry placed in the pool
has it set. -/
def scoreOf (e : Entry) : ℚ :=
  match e.voteScore with
  | PyField.val q => q
  | _ => 0

/-- The comparison used by the sort at src/compo.py line 263. -/
def poolLE (a b : Entry) : Prop := scoreOf a ≤ scoreOf b

instance : DecidableRel poolLE := fun a b =>
  inferInstanceAs (Decidable (scoreOf a ≤ scoreOf b))

instance : IsTotal Entry poolLE := ⟨fun a b => le_total (scoreOf a) (scoreOf b)⟩

instance : IsTrans Entry poolLE := ⟨fun _ _ _ h h2 => le_trans h h2⟩

/-- src/compo.py line 263: Python sorted is the stable ascending sort by
the key, which insertion sort with the non-strict comparison computes. -/
def sortPool (pool : List Entry) : List Entry := List.insertionSort poolLE pool

/-- src/compo.py lines 271-285: over all ballots, sum raw ratings for
entry a and entry b (a tested first, as in the source), and count the
ballots strictly preferring each. -/
def prefCounts (votes : List Vote) (a b : Entry) : ℕ × ℕ :=
  votes.foldl
    (fun pc v =>
      let s := v.ratings.foldl
        (fun (s : ℚ × ℚ) r =>
          if uuidEq a.uuid r.entryUUID then (s.1 + r.rating, s.2)
          else if uuidEq b.uuid r.entryUUID then (s.1, s.2 + r.rating)
          else s)
        (0, 0)
      if s.1 > s.2 then (pc.1 + 1, pc.2)
      else if s.2 > s.1 then (pc.1, pc.2 + 1)
      else pc)
    (0, 0)

/-- One iteration of the elimination loop (src/compo.py lines 262-292):
sort the pool, let a and b be its two lowest-score entries, and per the
branch at line 289 pop index 0 (that is, a) when preferA is at least
preferB, else pop index 1 (that is, b).  Returns the popped entry and
the remaining pool; none when the pool holds at most one entry and the
while condition fails. -/
def elimStep (votes : List Vote) (pool : List Entry) : Option (Entry × List Entry) :=
  match sortPool pool with
  | a :: b :: rest =>
    if (prefCounts votes a b).1 ≥ (prefCounts votes a b).2 then some (a, b :: rest)
    else some (b, a :: rest)
  | _ => none

/-- The elimination loop with fuel: each iteration pops exactly one
entry from the pool and appends it to ranked, and the loop stops when
the pool holds at most one entry.  A pool of n entries iterates at most
n - 1 times, so fuel n is enough and the fuel-zero state coincides with
the loop-exit state.  The last component counts iterations. -/
def elimGo (votes : List Vote) :
    ℕ → List Entry → List Entry → ℕ → List Entry × List Entry × ℕ
  | 0, pool, ranked, iters => (pool, ranked, iters)
  | fuel + 1, pool, ranked, iters =>
    match elimStep votes pool with
    | some (e, pool2) => elimGo votes fuel pool2 (ranked ++ [e]) (iters + 1)
    | none => (pool, ranked, iters)

/-- The elimination loop of src/compo.py lines 262-292, started with
enough fuel.  Returns the final pool, the accumulator, and the
iteration count. -/
def elim_loop (votes : List Vote) (pool ranked : List Entry) (iters : ℕ) :
    List Entry × List Entry × ℕ :=
  elimGo votes pool.length pool ranked iters

/-- src/compo.py lines 297-298: enumerate(reversed(ranked_entries))
writes votePlacement place+1 onto the element at each reversed
position; the function receives the already-reversed list. -/
def setPlacements (l : List Entry) : List Entry :=
  l.mapIdx (fun i e => { e with votePlacement := PyField.val (i + 1) })

/-- src/compo.py lines 224-300: the ranking computation that follows the
verify_votes call: extent scan, score accumulation, score assignment
over valid entries, elimination loop, insertion of the surviving pool
entry at the front of the accumulator (line 295, raising IndexError on
an empty pool), and placement assignment over the reversed list, which
is returned. -/
def rank_core (votes0 : List Vote) (entries : List Entry) : Except String (List Entry) :=
  let votes := votes0.map scanVote
  let sc := computeScores votes
  match assignScores sc entries with
  | Except.error m => Except.error m
  | Except.ok pool =>
    match elim_loop votes pool [] 0 with
    | (lastPool, ranked, _) =>
      match lastPool with
      | [] => Except.error indexErrorMsg
      | last :: _ => Except.ok (setPlacements (last :: ranked).reverse)

/-- src/compo.py lines 217-300.  `weeks` models get_week.  The result
carries the week state at return or raise time; an error result holds
the exception text and the week state at the raise, so an unchanged week
in the error witnesses that nothing was mutated first.  Line 222 passes
the bool which_week, not the week dict, to verify_votes, so
verify_votes_dyn receives a bool argument; its ok branch (reachable only
from a week argument) continues with the ranking computation of lines
224-300. -/
def get_ranked_entrant_list (which_week : Bool) (weeks : Bool → Week) :
    Except (String × Week) (Week × List Entry) :=
  let week := weeks which_week
  match verify_votes_dyn (PyArg.boolVal which_week) with
  | Except.error m => Except.error (m, week)
  | Except.ok _ =>
    match rank_core (week.votes.getD []) week.entries with
    | Except.error m => Except.error (m, week)
    | Except.ok ranked => Except.ok (week, ranked)

/-- A fully populated, valid entry with uuid "x". -/
def entryX : Entry :=
  { uuid := PyField.val "x", pdf := PyField.val [1], pdfFilename := PyField.val "x.pdf",
    mp3 := PyField.val [1], mp3Format := PyField.val "mp3",
    mp3Filename := PyField.val "x.mp3", entryName := PyField.val "X",
    entrantName := PyField.val "Alice" }

/-- A fully populated, valid entry with uuid "y". -/
def entryY : Entry :=
  { uuid := PyField.val "y", pdf := PyField.val [2], pdfFilename := PyField.val "y.pdf",
    mp3 := PyField.val [2], mp3Format := PyField.val "mp3",
    mp3Filename := PyField.val "y.mp3", entryName := PyField.val "Y",
    entrantName := PyField.val "Bob" }

/-- A week with two valid, scored entries: a ballot rates both. -/
def wTwoEntries : Week :=
  { votes := some [{ userID := "u",
                     ratings := [{ entryUUID := "x", voteParam := "overall", rating := 5 },
                                 { entryUUID := "y", voteParam := "overall", rating := 3 }] }],
    entries := [entryX, entryY] }

/-- A get_week model returning the two-entry week for either selector. -/
def wksTwoEntries : Bool → Week := fun _ => wTwoEntries

/-- An out-of-range rating (7) followed by another out-of-range rating
(9): the sanitizer rejects and removes the first, and the in-place
removal shifts the second to the slot the iterator has already passed. -/
def rBad7 : Rating := { entryUUID := "e1", voteParam := "overall", rating := 7 }

/-- The out-of-range rating that survives sanitization by being skipped. -/
def rBad9 : Rating := { entryUUID := "e2", voteParam := "overall", rating := 9 }

/-- A week whose single ballot holds the two out-of-range ratings. -/
def wBadPair : Week :=
  { votes := some [{ userID := "u", ratings := [rBad7, rBad9] }], entries := [] }

/-- An in-range rating, repeated three times in the ballot below. -/
def rOK3 : Rating := { entryUUID := "e1", voteParam := "overall", rating := 3 }

/-- A week whose single ballot repeats the same rating three times:
after sanitization two identical copies survive. -/
def wTriple : Week :=
  { votes := some [{ userID := "u", ratings := [rOK3, rOK3, rOK3] }], entries := [] }

/-- A week with one valid entry whose only rating is the abstain value
0: the scores dict gains the key with an empty list, and the mean of an
empty list raises. -/
def wAbstain : Week :=
  { votes := some [{ userID := "u",
                     ratings := [{ entryUUID := "x", voteParam := "overall", rating := 0 }] }],
    entries := [entryX] }

/-- A ballot with two nonzero ratings 3 and 5, for the normalization
witness. -/
def vWitness : Vote :=
  { userID := "u",
    ratings := [{ entryUUID := "x", voteParam := "overall", rating := 3 },
                { entryUUID := "y", voteParam := "overall", rating := 5 }] }

/-- An entry carrying every required key, whose pdf blob is present and
not None but empty. -/
def entryEmptyBlob : Entry :=
  { uuid := PyField.val "z", pdf := PyField.val [], pdfFilename := PyField.val "z.pdf",
    mp3 := PyField.val [3], mp3Format := PyField.val "mp3",
    mp3Filename := PyField.val "z.mp3", entryName := PyField.val "Z",
    entrantName := PyField.val "Carol" }

/-- Validity as the spec words it: all eight keys present and both
payload blobs non-empty.  Stated only to compare with entry_valid,
which the source defines by a None check instead. -/
def spec_entry_valid (e : Entry) : Bool :=
  isPresent e.uuid && isPresent e.pdf && isPresent e.pdfFilename &&
  isPresent e.mp3 && isPresent e.mp3Format && isPresent e.mp3Filename &&
  isPresent e.entryName && isPresent e.entrantName &&
  (match e.pdf with | PyField.val b => !b.isEmpty | _ => false) &&
  (match e.mp3 with | PyField.val b => !b.isEmpty | _ => false)

/-- entryX with voteScore 1, a pool entry for elimination tests. -/
def entryXS : Entry := { entryX with voteScore := PyField.val 1 }

/-- entryY with voteScore 2, a pool entry for elimination tests. -/
def entryYS : Entry := { entryY with voteScore := PyField.val 2 }

/-- entryX with voteScore 0, the result of score assignment with no
ratings. -/
def entryXZero : Entry := { entryX with voteScore := PyField.val 0 }

/-- A week dict lacking the votes key. -/
def wNoVotes : Week := { votes := none, entries := [] }

/-! Helper lemmas. -/

theorem isPresent_eq_true_iff {α : Type} (x : PyField α) :
    isPresent x = true ↔ x ≠ PyField.absent := by
  cases x <;> simp [isPresent]

theorem not_isNone_eq_true_iff {α : Type} (x : PyField α) :
    (!isNone x) = true ↔ x ≠ PyField.noneV := by
  cases x <;> simp [isNone]

theorem removeFirst_length {r : Rating} : ∀ {l : List Rating}, r ∈ l →
    (removeFirst r l).length + 1 = l.length := by
  intro l h
  induction l with
  | nil => cases h
  | cons x xs ih =>
    by_cases hx : x = r
    · simp [removeFirst, hx]
    · rcases List.mem_cons.mp h with h1 | h2
      · exact absurd h1.symm hx
      · simp [removeFirst, hx, ih h2]

theorem verifyVotesList_length :
    ∀ (vl : List Vote) (seen : List Triple) (logs : ℕ),
      (verifyVotesList seen logs vl).1.length = vl.length := by
  intro vl
  induction vl with
  | nil => intro seen logs; rfl
  | cons v vs ih =>
    intro seen logs
    simp only [verifyVotesList]
    rcases hv : verifyVote seen v logs with ⟨v2, seen2, logs2⟩
    rcases hvs : verifyVotesList seen2 logs2 vs with ⟨vs2, seen3, logs3⟩
    have := ih seen2 logs2
    rw [hvs] at this
    simpa using this

theorem count_valid_foldl (es : List Entry) :
    ∀ n : ℕ, es.foldl (fun c e => if entry_valid e then c + 1 else c) n
      = n + (es.filter (fun e => entry_valid e)).length := by
  induction es with
  | nil => intro n; simp
  | cons e es ih =>
    intro n
    by_cases he : entry_valid e
    · simp [he, ih]; omega
    · simp [he, ih]

theorem count_valid_eq (es : List Entry) :
    count_valid_entries es = (es.filter (fun e => entry_valid e)).length := by
  simpa using count_valid_foldl es 0

theorem extentStep_fst_le (mm : ℚ × ℚ) (r : Rating) : (extentStep mm r).1 ≤ mm.1 := by
  unfold extentStep
  by_cases h0 : r.rating = 0
  · simp [h0]
  · by_cases h1 : r.rating > mm.2 <;> by_cases h2 : r.rating < mm.1 <;>
      simp [h0, h1, h2] <;> linarith

theorem extentStep_snd_ge (mm : ℚ × ℚ) (r : Rating) : mm.2 ≤ (extentStep mm r).2 := by
  unfold extentStep
  by_cases h0 : r.rating = 0
  · simp [h0]
  · by_cases h1 : r.rating > mm.2 <;> by_cases h2 : r.rating < mm.1 <;>
      simp [h0, h1, h2] <;> linarith

theorem extent_foldl_fst_le :
    ∀ (rs : List Rating) (mm : ℚ × ℚ), (rs.foldl extentStep mm).1 ≤ mm.1 := by
  intro rs
  induction rs with
  | nil => intro mm; simp
  | cons r rs ih =>
    intro mm
    calc (List.foldl extentStep (extentStep mm r) rs).1 ≤ (extentStep mm r).1 := ih _
      _ ≤ mm.1 := extentStep_fst_le mm r

theorem extent_foldl_snd_ge :
    ∀ (rs : List Rating) (mm : ℚ × ℚ), mm.2 ≤ (rs.foldl extentStep mm).2 := by
  intro rs
  induction rs with
  | nil => intro mm; simp
  | cons r rs ih =>
    intro mm
    calc mm.2 ≤ (extentStep mm r).2 := extentStep_snd_ge mm r
      _ ≤ (List.foldl extentStep (extentStep mm r) rs).2 := ih _

theorem extentStep_bounds (mm : ℚ × ℚ) (r : Rating) (h0 : r.rating ≠ 0) :
    (extentStep mm r).1 ≤ r.rating ∧ r.rating ≤ (extentStep mm r).2 := by
  unfold extentStep
  by_cases h1 : r.rating > mm.2 <;> by_cases h2 : r.rating < mm.1 <;>
    simp [h0, h1, h2] <;> (try constructor) <;> linarith

theorem extent_foldl_mem :
    ∀ (rs : List Rating) (mm : ℚ × ℚ) (r : Rating), r ∈ rs → r.rating ≠ 0 →
      (rs.foldl extentStep mm).1 ≤ r.rating ∧ r.rating ≤ (rs.foldl extentStep mm).2 := by
  intro rs
  induction rs with
  | nil => intro mm r h; cases h
  | cons x xs ih =>
    intro mm r h h0
    rcases List.mem_cons.mp h with h1 | h2
    · subst h1
      constructor
      · exact le_trans (extent_foldl_fst_le xs (extentStep mm r)) (extentStep_bounds mm r h0).1
      · exact le_trans (extentStep_bounds mm r h0).2 (extent_foldl_snd_ge xs (extentStep mm r))
    · exact ih (extentStep mm x) r h2 h0

theorem extents_min_le_max (v : Vote) (hnz : ∃ r ∈ v.ratings, r.rating ≠ 0) :
    (voteExtents v).1 ≤ (voteExtents v).2 := by
  rcases hnz with ⟨r, hm, h0⟩
  have h := extent_foldl_mem v.ratings (5, 1) r hm h0
  unfold voteExtents
  linarith [h.1, h.2]

theorem elimStep_none_le (votes : List Vote) (pool : List Entry)
    (h : elimStep votes pool = none) : pool.length ≤ 1 := by
  have hl : (sortPool pool).length = pool.length :=
    (List.perm_insertionSort poolLE pool).length_eq
  unfold elimStep at h
  rcases hs : sortPool pool with _ | ⟨a, _ | ⟨b, rest⟩⟩ <;> rw [hs] at hl h <;> simp at hl
  · omega
  · omega
  · dsimp only at h
    split_ifs at h

theorem elimStep_some_len (votes : List Vote) (pool : List Entry) (e : Entry)
    (pool2 : List Entry) (h : elimStep votes pool = some (e, pool2)) :
    pool2.length + 1 = pool.length ∧ 2 ≤ pool.length := by
  have hl : (sortPool pool).length = pool.length :=
    (List.perm_insertionSort poolLE pool).length_eq
  unfold elimStep at h
  rcases hs : sortPool pool with _ | ⟨a, _ | ⟨b, rest⟩⟩ <;> rw [hs] at hl h <;> dsimp only at h
  · cases h
  · cases h
  · simp at hl
    split_ifs at h <;> injection h with h2 <;>
      rw [Prod.mk.injEq] at h2 <;> rcases h2 with ⟨h3, h4⟩ <;> subst h4 <;> simp <;> omega

theorem elimGo_spec (votes : List Vote) :
    ∀ (fuel : ℕ) (pool ranked : List Entry) (iters : ℕ), pool.length ≤ fuel + 1 →
      (elimGo votes fuel pool ranked iters).2.2 = iters + (pool.length - 1) ∧
      (elimGo votes fuel pool ranked iters).2.1.length = ranked.length + (pool.length - 1) ∧
      (elimGo votes fuel pool ranked iters).1.length = min pool.length 1 := by
  intro fuel
  induction fuel with
  | zero =>
    intro pool ranked iters h
    simp only [elimGo]
    refine ⟨by omega, by omega, by omega⟩
  | succ n ih =>
    intro pool ranked iters h
    cases hstep : elimStep votes pool with
    | none =>
      have hlen := elimStep_none_le votes pool hstep
      simp only [elimGo, hstep]
      refine ⟨by omega, by omega, by omega⟩
    | some pr =>
      rcases pr with ⟨e, pool2⟩
      have hl := elimStep_some_len votes pool e pool2 hstep
      have h2 : pool2.length ≤ n + 1 := by omega
      have hi := ih pool2 (ranked ++ [e]) (iters + 1) h2
      rcases hi with ⟨hi1, hi2, hi3⟩
      simp only [List.length_append, List.length_singleton] at hi2
      simp only [elimGo, hstep]
      refine ⟨by omega, by omega, by omega⟩

theorem assignScores_length (sc : List (String × List ℚ)) :
    ∀ (es : List Entry) (pool : List Entry), assignScores sc es = Except.ok pool →
      pool.length = count_valid_entries es := by
  intro es
  induction es with
  | nil =>
    intro pool h
    simp only [assignScores] at h
    injection h with h2
    subst h2
    rfl
  | cons e es ih =>
    intro pool h
    rw [count_valid_eq]
    by_cases he : entry_valid e
    · rcases hlk : scoreLookup sc e.uuid with _ | xs
      · rcases ha : assignScores sc es with m | rest <;>
          simp only [assignScores, he, if_true, hlk, ha] at h
        · cases h
        · cases h
          have := ih rest ha
          rw [count_valid_eq] at this
          simp [List.filter, he, this]
      · rcases hm : pymean xs with m | q <;> rcases ha : assignScores sc es with m2 | rest <;>
          simp only [assignScores, he, if_true, hlk, hm, ha] at h <;> cases h
        have := ih rest ha
        rw [count_valid_eq] at this
        simp [List.filter, he, this]
    · simp only [assignScores, he, Bool.false_eq_true, if_false] at h
      have := ih pool h
      rw [count_valid_eq] at this
      simp [List.filter, he, this]

/-! Claim theorems. -/

/-- C1: the claim asserts that for a week with n valid, scored entries
get_ranked_entrant_list returns exactly n entries with contiguous
placements 1..n, best first.  On the code no call returns at all: here a
concrete week holds two valid, scored entries, yet the call raises
TypeError at the verify_votes(which_week) call of line 222 and returns
the week unchanged inside the error, so no ranking is produced. -/
theorem c1_ranking_run_raises :
    count_valid_entries wTwoEntries.entries = 2 ∧
    get_ranked_entrant_list false wksTwoEntries
      = Except.error (typeErrorMsg, wksTwoEntries false) :=
  ⟨rfl, rfl⟩

/-- C2: for every input, get_ranked_entrant_list raises TypeError before
any score computation or mutation (the error carries the untouched week
state), because line 222 passes the bool which_week to verify_votes,
whose membership test at line 191 is applied to a bool; consequently no
call returns a ranking. -/
theorem c2_type_error_on_every_call (which_week : Bool) (weeks : Bool → Week) :
    get_ranked_entrant_list which_week weeks
      = Except.error (typeErrorMsg, weeks which_week) ∧
    ∀ result, get_ranked_entrant_list which_week weeks ≠ Except.ok result :=
  ⟨rfl, fun _ h => Except.noConfusion h⟩

/-- C3 counterexample: with no ballots, preferA = preferB = 0, so
preferA is at least preferB; the claim says B (the second-lowest entry)
is then removed and appended, but the elimination step pops index 0,
removing A, the lowest-voteScore entry, and B stays in the pool. -/
theorem c3_counterexample :
    sortPool [entryXS, entryYS] = [entryXS, entryYS] ∧
    scoreOf entryXS < scoreOf entryYS ∧
    (prefCounts [] entryXS entryYS).1 ≥ (prefCounts [] entryXS entryYS).2 ∧
    elimStep [] [entryXS, entryYS] = some (entryXS, [entryYS]) ∧
    entryXS ≠ entryYS := by
  refine ⟨by decide, by decide, by decide, by decide, by decide⟩

/-- C3 amended: in every iteration, with A the lowest-voteScore entry of
the sorted pool and B the second-lowest, if preferA is at least preferB
then A is removed from the pool and appended to the accumulator,
otherwise B is; so a head-to-head tie always eliminates A, the
lower-voteScore entry of the pair. -/
theorem c3_amended_elimination (votes : List Vote) (pool : List Entry) (a b : Entry)
    (rest : List Entry) (h : sortPool pool = a :: b :: rest) :
    poolLE a b ∧ (∀ e ∈ pool, poolLE a e) ∧
    ((prefCounts votes a b).1 ≥ (prefCounts votes a b).2 →
      elimStep votes pool = some (a, b :: rest)) ∧
    ((prefCounts votes a b).1 < (prefCounts votes a b).2 →
      elimStep votes pool = some (b, a :: rest)) := by
  have hsorted : List.Sorted poolLE (sortPool pool) :=
    List.sorted_insertionSort poolLE pool
  rw [h, List.sorted_cons] at hsorted
  refine ⟨hsorted.1 b (by simp), ?_, ?_, ?_⟩
  · intro e he
    have hmem : e ∈ a :: b :: rest := by
      rw [← h]
      exact ((List.perm_insertionSort poolLE pool).mem_iff).mpr he
    rcases List.mem_cons.mp hmem with h1 | h2
    · subst h1; exact le_refl (scoreOf e)
    · exact hsorted.1 e h2
  · intro hge
    unfold elimStep
    rw [h]
    dsimp only
    rw [if_pos hge]
  · intro hlt
    unfold elimStep
    rw [h]
    dsimp only
    rw [if_neg (not_le.mpr hlt)]

/-- C3 amended, witnessed at a concrete two-entry pool with no ballots:
the hypotheses hold and the tie removes the lowest-score entry. -/
theorem c3_amended_witness :
    sortPool [entryXS, entryYS] = entryXS :: entryYS :: [] ∧
    (poolLE entryXS entryYS ∧ (∀ e ∈ [entryXS, entryYS], poolLE entryXS e) ∧
     ((prefCounts [] entryXS entryYS).1 ≥ (prefCounts [] entryXS entryYS).2 →
       elimStep [] [entryXS, entryYS] = some (entryXS, entryYS :: [])) ∧
     ((prefCounts [] entryXS entryYS).1 < (prefCounts [] entryXS entryYS).2 →
       elimStep [] [entryXS, entryYS] = some (entryYS, entryXS :: []))) :=
  ⟨by decide, c3_amended_elimination [] [entryXS, entryYS] entryXS entryYS [] (by decide)⟩

/-- C4: the claim asserts that after verify_votes every surviving rating
lies in [0,5] and no two share a triple.  The in-place removal while
iterating breaks both: rejecting the rating 7 shifts the rating 9 past
the iterator, so a rating of 9 survives; and of three identical ratings,
two survive, sharing the same (voter, entry, parameter) triple. -/
theorem c4_invariants_violated_by_skip :
    (verify_votes wBadPair).1.votes = some [{ userID := "u", ratings := [rBad9] }] ∧
    rBad9.rating > 5 ∧
    (verify_votes wTriple).1.votes = some [{ userID := "u", ratings := [rOK3, rOK3] }] := by
  refine ⟨by decide, by decide, by decide⟩

/-- C5: the claim asserts sanitization is idempotent.  On the week whose
ballot held ratings 7 and 9, the first run removes one rating (one log
record) and leaves the rating 9 in place; the second run removes it too,
emitting one further log record and changing the votes again. -/
theorem c5_second_run_removes_more :
    (verify_votes wBadPair).2 = 1 ∧
    (verify_votes (verify_votes wBadPair).1).2 = 1 ∧
    (verify_votes (verify_votes wBadPair).1).1.votes
      = some [{ userID := "u", ratings := [] }] := by
  refine ⟨by decide, by decide, by decide⟩

/-- C7 counterexample: an entry carrying all eight keys whose pdf blob
is present, not None, but empty: entry_valid accepts it, while the
claimed non-empty-blob validity rejects it, so entry_valid is not the
claimed condition. -/
theorem c7_counterexample :
    entry_valid entryEmptyBlob = true ∧ spec_entry_valid entryEmptyBlob = false ∧
    entryEmptyBlob.pdf = PyField.val [] := by
  refine ⟨by decide, by decide, by decide⟩

/-- C7 amended: entry_valid returns true exactly when the eight required
keys are present and neither the document nor the audio blob is None (a
present empty blob is accepted); count_valid_entries counts exactly the
entries satisfying entry_valid. -/
theorem c7_amended_validity :
    (∀ e : Entry, entry_valid e = true ↔
      (e.uuid ≠ PyField.absent ∧ e.pdf ≠ PyField.absent ∧
       e.pdfFilename ≠ PyField.absent ∧ e.mp3 ≠ PyField.absent ∧
       e.mp3Format ≠ PyField.absent ∧ e.mp3Filename ≠ PyField.absent ∧
       e.entryName ≠ PyField.absent ∧ e.entrantName ≠ PyField.absent ∧
       e.mp3 ≠ PyField.noneV ∧ e.pdf ≠ PyField.noneV)) ∧
    (∀ es : List Entry,
      count_valid_entries es = (es.filter (fun e => entry_valid e)).length) := by
  constructor
  · intro e
    unfold entry_valid
    simp only [Bool.and_eq_true, isPresent_eq_true_iff, not_isNone_eq_true_iff]
    tauto
  · intro es
    exact count_valid_eq es

/-- C8: the claim asserts voteScore is set to the mean of the
accumulated normalized scores, or 0 with no ratings, completing even for
an entry whose only ratings are 0.  On a week whose valid entry received
only the abstain rating 0, the scores dict holds the uuid with an empty
list, so the mean of an empty sequence is taken and the ranking
computation raises StatisticsError instead of assigning 0. -/
theorem c8_abstain_only_entry_raises :
    rank_core (wAbstain.votes.getD []) wAbstain.entries
      = Except.error statisticsErrorMsg ∧
    computeScores ((wAbstain.votes.getD []).map scanVote) = [("x", [])] ∧
    entry_valid entryX = true := by
  refine ⟨rfl, by decide, by decide⟩

/-- C9: verify_votes, given structurally well-formed input, is a total
function: it creates the votes key as an empty list when absent, keeps
one (sanitized) vote per input vote, and leaves the entries untouched;
rejected ratings are only counted (logged) and removed, never raised. -/
theorem c9_verify_votes_total (w : Week) :
    ((verify_votes w).1.votes).isSome = true ∧
    (w.votes = none → (verify_votes w).1.votes = some []) ∧
    ((verify_votes w).1.votes.getD []).length = (w.votes.getD []).length ∧
    (verify_votes w).1.entries = w.entries := by
  have hlen := verifyVotesList_length (w.votes.getD []) [] 0
  unfold verify_votes
  rcases hv : verifyVotesList [] 0 (w.votes.getD []) with ⟨vs, seen, logs⟩
  rw [hv] at hlen
  refine ⟨rfl, ?_, ?_, rfl⟩
  · intro hnone
    rw [hnone] at hv
    simp only [Option.getD_none, verifyVotesList] at hv
    injection hv with h1 h2
    subst h1
    rfl
  · simpa using hlen

/-- C9 witness: on a concrete week lacking the votes key, verify_votes
returns and creates the key as an empty list. -/
theorem c9_verify_votes_witness :
    ((verify_votes wNoVotes).1.votes).isSome = true ∧
    (verify_votes wNoVotes).1.votes = some [] :=
  ⟨(c9_verify_votes_total wNoVotes).1, (c9_verify_votes_total wNoVotes).2.1 rfl⟩

/-- C10: the elimination loop always terminates with exact bookkeeping:
started on a pool of n entries it runs exactly n - 1 iterations (0 when
n is 0 or 1), each iteration moving exactly one entry from the pool to
the accumulator, leaving min n 1 entries in the pool; and the pool of a
ranking run consists of exactly the valid entries, so the run is bounded
by the entry count. -/
theorem c10_elimination_loop_bounded (votes : List Vote) (pool ranked : List Entry)
    (iters : ℕ) (sc : List (String × List ℚ)) (entries pool2 : List Entry)
    (h : assignScores sc entries = Except.ok pool2) :
    (elim_loop votes pool ranked iters).2.2 = iters + (pool.length - 1) ∧
    (elim_loop votes pool ranked iters).2.1.length = ranked.length + (pool.length - 1) ∧
    (elim_loop votes pool ranked iters).1.length = min pool.length 1 ∧
    pool2.length = count_valid_entries entries := by
  have hgo := elimGo_spec votes pool.length pool ranked iters (by omega)
  exact ⟨hgo.1, hgo.2.1, hgo.2.2, assignScores_length sc entries pool2 h⟩

/-- C10 witness: score assignment over one valid, unrated entry yields a
one-entry pool, and the loop over a two-entry pool runs one iteration. -/
theorem c10_witness :
    assignScores [] [entryX] = Except.ok [entryXZero] ∧
    ((elim_loop [] [entryXS, entryYS] [] 0).2.2
        = 0 + ([entryXS, entryYS] : List Entry).length - 1 ∧
      (elim_loop [] [entryXS, entryYS] [] 0).2.1.length
        = ([] : List Entry).length + (([entryXS, entryYS] : List Entry).length - 1) ∧
      (elim_loop [] [entryXS, entryYS] [] 0).1.length
        = min ([entryXS, entryYS] : List Entry).length 1 ∧
      ([entryXZero] : List Entry).length = count_valid_entries [entryX]) := by
  have := c10_elimination_loop_bounded [] [entryXS, entryYS] [] 0 [] [entryX] [entryXZero] rfl
  exact ⟨rfl, by simpa using this.1, this.2.1, this.2.2.1, this.2.2.2⟩

/-- C6: for a ballot with at least one non-zero rating, all values in
[0,5], every normalized value computed after the extent scan equals the
exact formula, lies in [0,5], equals 5 for a rating at the scanned
maximum, equals 5/(maximum - minimum + 1) for a non-zero rating at the
scanned minimum, and the denominator is non-zero. -/
theorem c6_normalization_exact (v : Vote)
    (hall : ∀ r ∈ v.ratings, 0 ≤ r.rating ∧ r.rating ≤ 5)
    (hnz : ∃ r ∈ v.ratings, r.rating ≠ 0) :
    (voteExtents v).2 - ((voteExtents v).1 - 1) ≠ 0 ∧
    ∀ r ∈ v.ratings, r.rating ≠ 0 →
      (normalized (scanVote v) r
          = ((r.rating - ((voteExtents v).1 - 1)) /
             ((voteExtents v).2 - ((voteExtents v).1 - 1))) * 5 ∧
       0 ≤ normalized (scanVote v) r ∧
       normalized (scanVote v) r ≤ 5 ∧
       (r.rating = (voteExtents v).2 → normalized (scanVote v) r = 5) ∧
       (r.rating = (voteExtents v).1 →
         normalized (scanVote v) r
           = 5 / ((voteExtents v).2 - (voteExtents v).1 + 1))) := by
  have hmM : (voteExtents v).1 ≤ (voteExtents v).2 := extents_min_le_max v hnz
  have hd : (0 : ℚ) < (voteExtents v).2 - ((voteExtents v).1 - 1) := by linarith
  have hd0 : (voteExtents v).2 - ((voteExtents v).1 - 1) ≠ 0 := ne_of_gt hd
  refine ⟨hd0, ?_⟩
  intro r hr h0
  have hb1 : (voteExtents v).1 ≤ r.rating := (extent_foldl_mem v.ratings (5, 1) r hr h0).1
  have hb2 : r.rating ≤ (voteExtents v).2 := (extent_foldl_mem v.ratings (5, 1) r hr h0).2
  have hnorm : normalized (scanVote v) r
      = ((r.rating - ((voteExtents v).1 - 1)) /
         ((voteExtents v).2 - ((voteExtents v).1 - 1))) * 5 := by
    simp [normalized, scanVote]
  refine ⟨hnorm, ?_, ?_, ?_, ?_⟩
  · rw [hnorm]
    have hnum : (0 : ℚ) ≤ r.rating - ((voteExtents v).1 - 1) := by linarith
    exact mul_nonneg (div_nonneg hnum (le_of_lt hd)) (by norm_num)
  · rw [hnorm]
    have h1 : (r.rating - ((voteExtents v).1 - 1)) /
        ((voteExtents v).2 - ((voteExtents v).1 - 1)) ≤ 1 :=
      (div_le_one hd).mpr (by linarith)
    linarith
  · intro hrM
    rw [hnorm, hrM, div_self hd0, one_mul]
  · intro hrm
    rw [hnorm, hrm]
    have h2 : (voteExtents v).1 - ((voteExtents v).1 - 1) = 1 := by ring
    rw [h2, div_mul_eq_mul_div, one_mul]
    have h3 : (voteExtents v).2 - ((voteExtents v).1 - 1)
        = (voteExtents v).2 - (voteExtents v).1 + 1 := by ring
    rw [h3]

/-- C6 witness: a concrete ballot with ratings 3 and 5 satisfies the
hypotheses, and its normalized values obey the stated bounds and
endpoint formulas. -/
theorem c6_normalization_witness :
    (∀ r ∈ vWitness.ratings, 0 ≤ r.rating ∧ r.rating ≤ 5) ∧
    (∃ r ∈ vWitness.ratings, r.rating ≠ 0) ∧
    ((voteExtents vWitness).2 - ((voteExtents vWitness).1 - 1) ≠ 0 ∧
     ∀ r ∈ vWitness.ratings, r.rating ≠ 0 →
       (normalized (scanVote vWitness) r
           = ((r.rating - ((voteExtents vWitness).1 - 1)) /
              ((voteExtents vWitness).2 - ((voteExtents vWitness).1 - 1))) * 5 ∧
        0 ≤ normalized (scanVote vWitness) r ∧
        normalized (scanVote vWitness) r ≤ 5 ∧
        (r.rating = (voteExtents vWitness).2 →
          normalized (scanVote vWitness) r = 5) ∧
        (r.rating = (voteExtents vWitness).1 →
          normalized (scanVote vWitness) r
            = 5 / ((voteExtents vWitness).2 - (voteExtents vWitness).1 + 1)))) :=
  ⟨by decide, by decide, c6_normalization_exact vWitness (by decide) (by decide)⟩

end WVote
